import Mathlib

/-!
# Verification of the Mush interpreter core

Shallow embedding of the three core modules of the Mush shell:

* the variable store (`store_get_string`, `store_get_int`,
  `store_set_string`, `store_set_int`),
* the program store (`prog_insert`, `prog_delete`, `prog_reset`,
  `prog_fetch`, `prog_next`, `prog_goto`, `prog_list`),
* the jobs module (`child_handler`, `jobs_poll`, `jobs_cancel`,
  `jobs_expunge`, `jobs_fini`, `read_output_capture`, `jobs_get_output`).

C strings are modelled as lists of byte values (a C string cannot carry
an interior NUL, so the lists stand for the bytes up to the terminator).
The intrusive doubly-linked lists with a sentinel head are modelled as
Lean lists; a node pointer into such a list is modelled as an index,
where index `length` stands for the sentinel head itself and an absent
(`none`) pointer stands for C `NULL`.  Undefined behaviour (a NULL or
dangling dereference) is modelled by an `Option`-valued result being
`none` where it can occur.
-/

namespace Mush

/-! ## Byte strings and the C library functions used by the store -/

/-- A C string: the bytes before the terminating NUL. -/
abbrev CStr := List Nat

/-- C `isspace` in the default locale. -/
def isspaceB (b : Nat) : Bool := b == 32 || (9 ≤ b && b ≤ 13)

/-- C `isdigit`. -/
def isdigitB (b : Nat) : Bool := 48 ≤ b && b ≤ 57

/-- Value of a run of decimal digit bytes, most significant first. -/
def digitsVal (l : List Nat) : Nat := l.foldl (fun a b => 10 * a + (b - 48)) 0

def LONG_MAX : Int := 9223372036854775807

def LONG_MIN : Int := -9223372036854775808

/-- `strtol` clamps an out-of-range value to `LONG_MAX` / `LONG_MIN`. -/
def clampLong (v : Int) : Int :=
  if v > LONG_MAX then LONG_MAX else if v < LONG_MIN then LONG_MIN else v

/-- Model of `strtol(s, &end_ptr, 10)`: the converted value and the number
of bytes consumed (`end_ptr - s`), which is `0` exactly when no conversion
was performed.  `strtol` skips leading white space, accepts one optional
`+` (byte 43) or `-` (byte 45), and then consumes a maximal digit run. -/
def strtol10 (s : CStr) : Int × Nat :=
  let ws := s.takeWhile isspaceB
  let r1 := s.drop ws.length
  let sgn : Int := if r1.head? = some 45 then -1 else 1
  let signLen : Nat := if r1.head? = some 45 then 1 else if r1.head? = some 43 then 1 else 0
  let ds := (r1.drop signLen).takeWhile isdigitB
  if ds.isEmpty then (0, 0)
  else (clampLong (sgn * (digitsVal ds : Int)), ws.length + signLen + ds.length)

/-! ## The variable store (data store module)

`VAR_NODE` carries a name and a value pointer that may be NULL (unset);
the circular list with dummy head is modelled as a plain list, and the
global `vstorage` pointer as an `Option` (NULL before the first `set`). -/

structure VarNode where
  var_name : CStr
  var_value : Option CStr
deriving DecidableEq

abbrev VarStore := Option (List VarNode)

/-- Walk of `store_get_string`: value of the first node with the name. -/
def getStringAux (var : CStr) : List VarNode → Option CStr
  | [] => none
  | nd :: rest => if nd.var_name = var then nd.var_value else getStringAux var rest

/-- `store_get_string`: NULL when the store is empty, the variable is
unknown, or its value is unset. -/
def store_get_string (var : CStr) : VarStore → Option CStr
  | none => none
  | some l => getStringAux var l

/-- Walk of `store_get_int`: on the first node with the name, fail if the
value is NULL or empty, else `strtol` it and succeed only when the whole
string was consumed (`*end_ptr == 0`). -/
def getIntAux (var : CStr) : List VarNode → Option Int
  | [] => none
  | nd :: rest =>
    if nd.var_name = var then
      match nd.var_value with
      | none => none
      | some v =>
        if v = [] then none
        else
          let r := strtol10 v
          if r.2 = v.length then some r.1 else none
    else getIntAux var rest

/-- `store_get_int`: `some k` models return `0` with `*valp = k`,
`none` models return `-1`. -/
def store_get_int (var : CStr) : VarStore → Option Int
  | none => none
  | some l => getIntAux var l

/-- Walk of `store_set_string`: replace the value of the first node with
the name, else append a fresh node at the tail (before the dummy head). -/
def setStringAux (var : CStr) (val : Option CStr) : List VarNode → List VarNode
  | [] => [⟨var, val⟩]
  | nd :: rest =>
    if nd.var_name = var then ⟨nd.var_name, val⟩ :: rest
    else nd :: setStringAux var val rest

/-- `store_set_string`.  The C function returns `-1` only for a NULL
`var` pointer, which a byte-list cannot denote, so the result code is
always `0`; an absent store is initialised to the empty list first.
The `strncpy(valcpy, val, strlen(val)+1)` copy is byte-exact. -/
def store_set_string (var : CStr) (val : Option CStr) (s : VarStore) : Int × VarStore :=
  (0, some (setStringAux var val (s.getD [])))

/-- Decimal digit bytes of `n`, most significant first. -/
def natDigits (n : Nat) : List Nat :=
  if h : n < 10 then [48 + n] else natDigits (n / 10) ++ [48 + n % 10]
termination_by n
decreasing_by
  simp_wf
  exact Nat.div_lt_self (by omega) (by omega)

/-- The byte string written by `sprintf(buf, "%ld", v)`. -/
def fmtLong (v : Int) : CStr :=
  if v < 0 then 45 :: natDigits (-v).toNat else natDigits v.toNat

/-- The digit-counting loop of `store_set_int`:
`while(tempval != 0){ len++; tempval = tempval/10; }`. -/
def cDigitLoop (n : Nat) : Nat :=
  if n = 0 then 0 else 1 + cDigitLoop (n / 10)
termination_by n
decreasing_by
  simp_wf
  exact Nat.div_lt_self (by omega) (by omega)

/-- The length `store_set_int` computes before the loop runs:
`1` for `val == 0`, `1` (for the sign) for negative `val`, else `0`,
plus the loop count on `|val|` (the code computes `-val`, exact here). -/
def cIntLen (v : Int) : Nat :=
  (if v = 0 then 1 else if v < 0 then 1 else 0) +
    cDigitLoop (if v < 0 then (-v).toNat else v.toNat)

/-- Return value of `sprintf(valcpy, "%ld%c", val, '\0')`: the decimal
rendering plus the one explicitly written NUL byte. -/
def sprintfRet (v : Int) : Nat := (fmtLong v).length + 1

/-- The guard `sprintf(...) != len` in `store_set_int` (with
`len = cIntLen v + 1` after the final `len++`). -/
def sprintfGuard (v : Int) : Bool := sprintfRet v == cIntLen v + 1

/-- Walk of `store_set_int`.  On guard failure in the replace branch the
C code has already freed the old value, leaving the node's value pointer
dangling; that is modelled as the value becoming unset.  The branch is
proved unreachable (`sprintfGuard_true`). -/
def setIntAux (var : CStr) (v : Int) : List VarNode → Int × List VarNode
  | [] =>
    if sprintfGuard v then (0, [⟨var, some (fmtLong v)⟩]) else (-1, [])
  | nd :: rest =>
    if nd.var_name = var then
      if sprintfGuard v then (0, ⟨nd.var_name, some (fmtLong v)⟩ :: rest)
      else (-1, ⟨nd.var_name, none⟩ :: rest)
    else
      let r := setIntAux var v rest
      (r.1, nd :: r.2)

/-- `store_set_int`. -/
def store_set_int (var : CStr) (v : Int) (s : VarStore) : Int × VarStore :=
  let r := setIntAux var v (s.getD [])
  (r.1, some r.2)

/-! ## Lemmas about decimal formatting and parsing -/

theorem digitsVal_append_one (A : List Nat) (b : Nat) :
    digitsVal (A ++ [b]) = 10 * digitsVal A + (b - 48) := by
  simp [digitsVal, List.foldl_append]

theorem natDigits_ne_nil (n : Nat) : natDigits n ≠ [] := by
  rw [natDigits]
  split
  · exact List.cons_ne_nil _ _
  · simp

theorem natDigits_digits (n : Nat) : ∀ b ∈ natDigits n, isdigitB b = true := by
  induction n using Nat.strong_induction_on with
  | _ n ih =>
    rw [natDigits]
    split
    · intro b hb
      simp only [List.mem_singleton] at hb
      subst hb
      simp only [isdigitB, Bool.and_eq_true, decide_eq_true_eq]
      omega
    · intro b hb
      rcases List.mem_append.mp hb with h | h
      · exact ih (n / 10) (Nat.div_lt_self (by omega) (by omega)) b h
      · simp only [List.mem_singleton] at h
        subst h
        simp only [isdigitB, Bool.and_eq_true, decide_eq_true_eq]
        omega

theorem digitsVal_natDigits (n : Nat) : digitsVal (natDigits n) = n := by
  induction n using Nat.strong_induction_on with
  | _ n ih =>
    rw [natDigits]
    split
    · simp only [digitsVal, List.foldl_cons, List.foldl_nil]
      omega
    · rw [digitsVal_append_one, ih (n / 10) (Nat.div_lt_self (by omega) (by omega))]
      omega

theorem natDigits_length (n : Nat) (h : 0 < n) : (natDigits n).length = cDigitLoop n := by
  induction n using Nat.strong_induction_on with
  | _ n ih =>
    rw [natDigits, cDigitLoop]
    split
    · have h10 : n / 10 = 0 := by omega
      rw [if_neg (by omega), h10, cDigitLoop]
      simp
    · rw [if_neg (by omega), List.length_append,
        ih (n / 10) (Nat.div_lt_self (by omega) (by omega)) (by omega)]
      simp [Nat.add_comm]

theorem sprintfGuard_true (v : Int) : sprintfGuard v = true := by
  simp only [sprintfGuard, sprintfRet, beq_iff_eq, Nat.add_right_cancel_iff]
  rcases lt_trichotomy v 0 with hv | hv | hv
  · simp only [fmtLong, cIntLen, if_pos hv, if_neg (show ¬v = 0 by omega),
      List.length_cons, natDigits_length _ (show 0 < (-v).toNat by omega)]
    omega
  · subst hv
    simp [fmtLong, natDigits, cIntLen, cDigitLoop]
  · simp only [fmtLong, cIntLen, if_neg (show ¬v < 0 by omega),
      if_neg (show ¬v = 0 by omega), natDigits_length _ (show 0 < v.toNat by omega)]
    omega

theorem isdigitB_not_space {b : Nat} (h : isdigitB b = true) : isspaceB b = false := by
  simp only [isdigitB, Bool.and_eq_true, decide_eq_true_eq] at h
  simp only [isspaceB, Bool.or_eq_false_iff, beq_eq_false_iff_ne, ne_eq,
    Bool.and_eq_false_iff, decide_eq_false_iff_not]
  omega

theorem isdigitB_ne_sign {b : Nat} (h : isdigitB b = true) : b ≠ 45 ∧ b ≠ 43 := by
  simp only [isdigitB, Bool.and_eq_true, decide_eq_true_eq] at h
  omega

/-- `strtol` on a pure digit run: the whole run is consumed. -/
theorem strtol10_digits (b : Nat) (D : List Nat)
    (hd : ∀ x ∈ b :: D, isdigitB x = true) :
    strtol10 (b :: D) = (clampLong (digitsVal (b :: D) : Int), D.length + 1) := by
  have hb := hd b (List.mem_cons_self ..)
  have h45 : ¬b = 45 := (isdigitB_ne_sign hb).1
  have h43 : ¬b = 43 := (isdigitB_ne_sign hb).2
  have hws : (b :: D).takeWhile isspaceB = [] :=
    List.takeWhile_cons_of_neg (by simp [isdigitB_not_space hb])
  have htake : (b :: D).takeWhile isdigitB = b :: D :=
    List.takeWhile_eq_self_iff.mpr hd
  simp only [strtol10, hws, List.length_nil, List.drop_zero, List.head?_cons,
    Option.some.injEq, if_neg h45, if_neg h43, htake, List.isEmpty_cons,
    Bool.false_eq_true, if_false, one_mul, List.length_cons]
  norm_num

/-- `strtol` on a minus sign followed by a pure digit run. -/
theorem strtol10_neg_digits (b : Nat) (D : List Nat)
    (hd : ∀ x ∈ b :: D, isdigitB x = true) :
    strtol10 (45 :: b :: D) = (clampLong (-(digitsVal (b :: D) : Int)), D.length + 2) := by
  have hws : (45 :: b :: D).takeWhile isspaceB = [] :=
    List.takeWhile_cons_of_neg (by decide)
  have htake : (b :: D).takeWhile isdigitB = b :: D :=
    List.takeWhile_eq_self_iff.mpr hd
  simp only [strtol10, hws, List.length_nil, List.drop_zero, List.head?_cons,
    Option.some.injEq, eq_self_iff_true, if_true, List.drop_one, List.tail_cons,
    htake, List.isEmpty_cons, Bool.false_eq_true, if_false, neg_one_mul,
    List.length_cons]
  norm_num
  omega

/-- `strtol` reads back exactly what `sprintf("%ld", ·)` printed,
consuming the whole string, for any in-range long value. -/
theorem strtol10_fmtLong (v : Int) (h1 : LONG_MIN ≤ v) (h2 : v ≤ LONG_MAX) :
    strtol10 (fmtLong v) = (v, (fmtLong v).length) := by
  have hdig : ∀ b ∈ natDigits v.natAbs, isdigitB b = true := natDigits_digits _
  have hval : digitsVal (natDigits v.natAbs) = v.natAbs := digitsVal_natDigits _
  obtain ⟨b, D, hD⟩ : ∃ b D, natDigits v.natAbs = b :: D := by
    rcases h : natDigits v.natAbs with _ | ⟨b, D⟩
    · exact absurd h (natDigits_ne_nil _)
    · exact ⟨b, D, rfl⟩
  rw [hD] at hdig hval
  rcases lt_or_le v 0 with hv | hv
  · -- negative: "45 :: digits"
    have hfmt : fmtLong v = 45 :: b :: D := by
      rw [fmtLong, if_pos hv, show (-v).toNat = v.natAbs by omega, hD]
    rw [hfmt, strtol10_neg_digits b D hdig, hval]
    have hcv : -(v.natAbs : Int) = v := by omega
    rw [hcv, clampLong, if_neg (by omega), if_neg (by omega)]
    simp
  · -- non-negative: a plain digit run
    have hfmt : fmtLong v = b :: D := by
      rw [fmtLong, if_neg (by omega), show v.toNat = v.natAbs by omega, hD]
    rw [hfmt, strtol10_digits b D hdig, hval]
    have hcv : (v.natAbs : Int) = v := by omega
    rw [hcv, clampLong, if_neg (by omega), if_neg (by omega)]
    simp

theorem fmtLong_ne_nil (v : Int) : fmtLong v ≠ [] := by
  rw [fmtLong]
  split
  · exact List.cons_ne_nil _ _
  · exact natDigits_ne_nil _

/-! ## Round-trip lemmas for the store walks -/

theorem getIntAux_setIntAux (var : CStr) (v : Int) (l : List VarNode)
    (h1 : LONG_MIN ≤ v) (h2 : v ≤ LONG_MAX) :
    getIntAux var (setIntAux var v l).2 = some v := by
  induction l with
  | nil =>
    simp only [setIntAux, sprintfGuard_true, if_true, getIntAux, if_pos rfl]
    rw [if_neg (fmtLong_ne_nil v), strtol10_fmtLong v h1 h2, if_pos rfl]
  | cons nd rest ih =>
    by_cases hn : nd.var_name = var
    · simp only [setIntAux, hn, if_pos rfl, sprintfGuard_true, if_true, getIntAux]
      rw [if_neg (fmtLong_ne_nil v), strtol10_fmtLong v h1 h2, if_pos rfl]
    · simp only [setIntAux, hn, if_false, getIntAux]
      exact ih

theorem getStringAux_setStringAux (var : CStr) (val : Option CStr) (l : List VarNode) :
    getStringAux var (setStringAux var val l) = val := by
  induction l with
  | nil => simp [setStringAux, getStringAux]
  | cons nd rest ih =>
    by_cases hn : nd.var_name = var
    · simp [setStringAux, hn, getStringAux]
    · simp [setStringAux, hn, getStringAux, ih]

/-! ## Claims C4 and C3 -/

/-- C4: for every store state, every non-empty name `n`, every
representable long `k` and every string `s`, `get_int` after
`set_int(n, k)` returns `k`, and `get_string` after `set_string(n, s)`
returns a byte-exact copy of `s`. -/
theorem spec_C4_var_roundtrip (s : VarStore) (n : CStr) (_hn : n ≠ []) (k : Int)
    (hk1 : LONG_MIN ≤ k) (hk2 : k ≤ LONG_MAX) (v : CStr) :
    store_get_int n (store_set_int n k s).2 = some k ∧
    store_get_string n (store_set_string n (some v) s).2 = some v := by
  refine ⟨?_, ?_⟩
  · simp only [store_set_int, store_get_int]
    exact getIntAux_setIntAux n k (s.getD []) hk1 hk2
  · simp only [store_set_string, store_get_string]
    exact getStringAux_setStringAux n (some v) (s.getD [])

theorem spec_C4_var_roundtrip_witness :
    store_get_int [120] (store_set_int [120] (-42) (some [])).2 = some (-42) ∧
    store_get_string [120] (store_set_string [120] (some [104, 105]) (some [])).2 =
      some [104, 105] :=
  spec_C4_var_roundtrip (some []) [120] (by decide) (-42) (by decide) (by decide) [104, 105]

/-- C3 counterexample: the claim says `get_int` fails on a stored value
`" 1"` (no leading white space allowed), but `strtol` skips the blank and
the reference parses it successfully as `1`. -/
theorem spec_C3_counterexample :
    store_get_int [120] (some [⟨[120], some [32, 49]⟩]) = some 1 := by decide

/-- C3 (amended): with the stored value as listed, `get_int` succeeds on
`"0"`, `"-1"`, `"2147483647"` and also on `" 1"` and `"+1"` (yielding
`0`, `-1`, `2147483647`, `1`, `1`: `strtol` skips leading white space and
accepts one leading `+` or `-`), and fails on `""`, `"1 "`, `"1a"`,
`"0x10"`: after the optional white space and sign, the digit run must
extend to the end of the string. -/
theorem spec_C3_amended_get_int_strictness (n : CStr) :
    store_get_int n (some [⟨n, some [48]⟩]) = some 0 ∧
    store_get_int n (some [⟨n, some [45, 49]⟩]) = some (-1) ∧
    store_get_int n (some [⟨n, some [50, 49, 52, 55, 52, 56, 51, 54, 52, 55]⟩]) =
      some 2147483647 ∧
    store_get_int n (some [⟨n, some [32, 49]⟩]) = some 1 ∧
    store_get_int n (some [⟨n, some [43, 49]⟩]) = some 1 ∧
    store_get_int n (some [⟨n, some []⟩]) = none ∧
    store_get_int n (some [⟨n, some [49, 32]⟩]) = none ∧
    store_get_int n (some [⟨n, some [49, 97]⟩]) = none ∧
    store_get_int n (some [⟨n, some [48, 120, 49, 48]⟩]) = none := by
  have h : ∀ (v : CStr), store_get_int n (some [⟨n, some v⟩]) =
      (if v = [] then none
       else if (strtol10 v).2 = v.length then some (strtol10 v).1 else none) := by
    intro v
    simp [store_get_int, getIntAux]
  rw [h, h, h, h, h, h, h, h, h]
  refine ⟨by decide, by decide, by decide, by decide, by decide, by decide, by decide,
    by decide, by decide⟩

/-! ## The program store

`PROG_LINE` nodes carry a statement (opaque here except for its line
number, which `prog_insert` requires; the statement identity is an
opaque tag).  The circular list with dummy head is a Lean list; the
program counter, a node pointer, is an index: `some i` with
`i < lines.length` designates the `i`-th line, `some lines.length`
designates the dummy head (position *at end*), and `none` is the NULL
counter that exists from initialisation until the first
`prog_reset`/`prog_goto`/`prog_next`.  The global `pstorage` pointer is
an `Option` (NULL until the first `prog_insert` call). -/

structure Line where
  lineno : Int
  stmt : Nat
deriving DecidableEq

structure Prog where
  lines : List Line
  counter : Option Nat
deriving DecidableEq

abbrev PState := Option Prog

/-- List part of the `prog_insert` walk: replace the node with an equal
line number, or splice a fresh node in front of the first node with a
larger line number (in front of the dummy head if none). -/
def insList (t : Line) : List Line → List Line
  | [] => [t]
  | l :: rest =>
    if l.lineno = t.lineno then t :: rest
    else if t.lineno < l.lineno then t :: l :: rest
    else l :: insList t rest

/-- Counter adjustment for `prog_insert`: the C counter is a node
pointer and node identities survive insertion, so the index of the
designated node shifts by one exactly when the new node lands at or
before it (replacement splices no node and shifts nothing). -/
def insCur (t : Line) : List Line → Nat → Nat
  | [], c => c + 1
  | l :: rest, c =>
    if l.lineno = t.lineno then c
    else if t.lineno < l.lineno then c + 1
    else if c = 0 then 0 else insCur t rest (c - 1) + 1

/-- `prog_insert`: initialises the store (with a NULL counter) if
needed, rejects a non-positive line number, else inserts/replaces. -/
def prog_insert (t : Line) (s : PState) : Int × PState :=
  let p := s.getD ⟨[], none⟩
  if t.lineno ≤ 0 then (-1, some p)
  else
    match p.counter with
    | none => (0, some ⟨insList t p.lines, none⟩)
    | some c => (0, some ⟨insList t p.lines, some (insCur t p.lines c)⟩)

/-- The range test of `prog_delete`:
`lineno >= min && lineno <= max`. -/
def inRangeL (mn mx : Int) (l : Line) : Bool :=
  decide (mn ≤ l.lineno) && decide (l.lineno ≤ mx)

/-- List part of the `prog_delete` loop: unlink every node in range. -/
def delList (mn mx : Int) : List Line → List Line
  | [] => []
  | l :: rest => if inRangeL mn mx l then delList mn mx rest else l :: delList mn mx rest

/-- Counter adjustment for `prog_delete`: the loop sets
`counter = current->next` each time it unlinks the node the counter
points at, so the counter slides to the next surviving node (or to the
dummy head); indices of surviving nodes shift down past each unlinked
node. -/
def delCur (mn mx : Int) : List Line → Nat → Nat
  | [], c => c
  | l :: rest, c =>
    if inRangeL mn mx l then delCur mn mx rest (if c = 0 then 0 else c - 1)
    else if c = 0 then 0 else delCur mn mx rest (c - 1) + 1

/-- `prog_delete`: validates the range, is a no-op on the
never-initialised store, else unlinks the nodes in range.  A NULL
counter is never equal to any node and is untouched. -/
def prog_delete (mn mx : Int) (s : PState) : Int × PState :=
  if mn ≤ 0 ∨ mx ≤ 0 ∨ mx < mn then (-1, s)
  else
    match s with
    | none => (0, none)
    | some p =>
      match p.counter with
      | none => (0, some ⟨delList mn mx p.lines, none⟩)
      | some c => (0, some ⟨delList mn mx p.lines, some (delCur mn mx p.lines c)⟩)

/-- `prog_reset`: counter to `head->next` (index 0, which is the dummy
head itself when the list is empty); no-op on the never-initialised
store. -/
def prog_reset : PState → PState
  | none => none
  | some p => some ⟨p.lines, some 0⟩

/-- `content` of the node at index `i`: the dummy head (index
`lines.length` and beyond) has NULL content. -/
def lineAt (lines : List Line) (i : Nat) : Option Nat :=
  match lines.get? i with
  | some l => some l.stmt
  | none => none

/-- `prog_fetch`: returns NULL on the never-initialised store, but on an
initialised store it dereferences `pstorage->counter` without a NULL
check — `none` (the outer layer) models that undefined behaviour. -/
def prog_fetch : PState → Option (Option Nat)
  | none => some none
  | some p =>
    match p.counter with
    | none => none
    | some c => some (lineAt p.lines c)

/-- `prog_next`: NULL on the never-initialised store and on a NULL
counter; otherwise advances the counter unless it is at the dummy head,
then returns the content at the new counter. -/
def prog_next : PState → Option Nat × PState
  | none => (none, none)
  | some p =>
    match p.counter with
    | none => (none, some p)
    | some c =>
      let c2 := if c = p.lines.length then c else c + 1
      (lineAt p.lines c2, some ⟨p.lines, some c2⟩)

/-- Walk of `prog_goto`: index and node of the first line with the
requested number. -/
def gotoAux (n : Int) : List Line → Option (Nat × Line)
  | [] => none
  | l :: rest =>
    if l.lineno = n then some (0, l)
    else
      match gotoAux n rest with
      | some r => some (r.1 + 1, r.2)
      | none => none

/-- `prog_goto`: unlike every other operation it reads
`pstorage->head` without checking `pstorage` for NULL, so on the
never-initialised store it is undefined behaviour (`none`); otherwise
it moves the counter to the matching node and returns its statement, or
changes nothing and returns NULL. -/
def prog_goto (n : Int) : PState → Option (Option Nat × PState)
  | none => none
  | some p =>
    match gotoAux n p.lines with
    | some r => some (some r.2.stmt, some ⟨p.lines, some r.1⟩)
    | none => some (none, some p)

/-- Events emitted by `prog_list`: `none` is the `-->` marker line,
`some s` is `show_stmt` on statement `s`.  The marker is emitted just
before the counter node (or after everything when the counter is the
dummy head); a NULL counter matches no position. -/
def listEvents (counter : Option Nat) : List Line → Nat → List (Option Nat)
  | [], i => if counter = some i then [none] else []
  | l :: rest, i =>
    (if counter = some i then [none] else []) ++ (some l.stmt :: listEvents counter rest (i + 1))

/-- `prog_list`: returns 0 immediately on the never-initialised store. -/
def prog_list : PState → Int × List (Option Nat)
  | none => (0, [])
  | some p => (0, listEvents p.counter p.lines 0)

/-! ## Claim C5: `prog_fetch` on an unset counter -/

/-- C5: the claim says `fetch` is total and returns none when the
counter is unset, in particular after statements have been inserted but
`reset` has never run.  In that very state (`prog_insert` initialises
the counter to NULL and never sets it) `prog_fetch` evaluates
`pstorage->counter->content` with `counter == NULL`: undefined
behaviour, modelled as the outer `none`.  The never-initialised store
and the at-end counter, by contrast, do return NULL normally, and
`prog_fetch` never modifies the state (it takes the state and returns
only a value). -/
theorem spec_C5_fetch_null_counter :
    prog_insert ⟨10, 1⟩ none = (0, some ⟨[⟨10, 1⟩], none⟩) ∧
    prog_fetch (some ⟨[⟨10, 1⟩], none⟩) = none ∧
    prog_fetch none = some none ∧
    prog_fetch (some ⟨[⟨10, 1⟩], some 1⟩) = some none ∧
    prog_fetch (some ⟨[⟨10, 1⟩], some 0⟩) = some (some 1) := by decide

/-! ## Claim C6: cursor preservation across `prog_delete` -/

theorem delList_eq_filter (mn mx : Int) (ls : List Line) :
    delList mn mx ls = ls.filter (fun l => !inRangeL mn mx l) := by
  induction ls with
  | nil => rfl
  | cons l rest ih =>
    by_cases hr : inRangeL mn mx l = true
    · simp [delList, hr, List.filter_cons, ih]
    · simp [delList, hr, List.filter_cons, ih]

/-- The index the `prog_delete` loop leaves the counter at is the number
of surviving nodes in front of the old counter position. -/
theorem delCur_take (mn mx : Int) (ls : List Line) (c : Nat) (hc : c ≤ ls.length) :
    delCur mn mx ls c = (delList mn mx (ls.take c)).length := by
  induction ls generalizing c with
  | nil =>
    have hc0 : c = 0 := by simpa using hc
    subst hc0
    rfl
  | cons l rest ih =>
    cases c with
    | zero =>
      by_cases hr : inRangeL mn mx l = true
      · simp only [delCur, hr, if_true, if_pos rfl, List.take_zero, delList,
          List.length_nil]
        rw [ih 0 (Nat.zero_le _)]
        rfl
      · simp [delCur, hr, delList]
    | succ k =>
      have hk : k ≤ rest.length := by simpa using hc
      by_cases hr : inRangeL mn mx l = true
      · simp only [delCur, hr, if_true, Nat.succ_ne_zero, if_false, Nat.succ_sub_one,
          List.take_succ_cons, delList]
        exact ih k hk
      · simp only [delCur, hr, Bool.false_eq_true, if_false, Nat.succ_ne_zero,
          Nat.succ_sub_one, List.take_succ_cons, delList, List.length_cons]
        rw [ih k hk]

/-- C6: on a well-formed store (strictly increasing line numbers) with
the cursor designating the line at index `c`, a valid `delete(min,max)`
leaves the cursor designating the same line if that line is outside the
range; if the line is inside the range, every surviving line in front of
the cursor has number at most `max`, the line at the cursor (if any) has
number exceeding `max`, and if there is none the cursor is at end. -/
theorem spec_C6_delete_cursor (lines : List Line) (c : Nat) (mn mx : Int)
    (hs : List.Pairwise (fun a b => a.lineno < b.lineno) lines)
    (h1 : 1 ≤ mn) (h2 : mn ≤ mx) (hc : c < lines.length) :
    prog_delete mn mx (some ⟨lines, some c⟩) =
      (0, some ⟨delList mn mx lines, some (delCur mn mx lines c)⟩) ∧
    (inRangeL mn mx lines[c] = false →
      (delList mn mx lines)[delCur mn mx lines c]? = some lines[c]) ∧
    (inRangeL mn mx lines[c] = true →
      (∀ i, i < delCur mn mx lines c →
        ∃ l, (delList mn mx lines)[i]? = some l ∧ l.lineno ≤ mx) ∧
      (∀ l, (delList mn mx lines)[delCur mn mx lines c]? = some l →
        mx < l.lineno) ∧
      ((delList mn mx lines)[delCur mn mx lines c]? = none →
        delCur mn mx lines c = (delList mn mx lines).length)) := by
  have hK := delCur_take mn mx lines c (Nat.le_of_lt hc)
  have hsplit : delList mn mx lines =
      delList mn mx (lines.take c) ++ delList mn mx (lines.drop c) := by
    rw [delList_eq_filter, delList_eq_filter, delList_eq_filter, ← List.filter_append,
      List.take_append_drop]
  have hdrop : lines.drop c = lines[c] :: lines.drop (c + 1) :=
    List.drop_eq_getElem_cons hc
  have hs2 : List.Pairwise (fun a b => a.lineno < b.lineno)
      (lines.take c ++ lines.drop c) := by
    rw [List.take_append_drop]
    exact hs
  obtain ⟨hPWtake, hPWdrop, hcross⟩ := List.pairwise_append.mp hs2
  have hcmem : lines[c] ∈ lines.drop c := by
    rw [hdrop]
    exact List.mem_cons_self ..
  refine ⟨?_, ?_, ?_⟩
  · rw [prog_delete, if_neg (by omega)]
  · intro hkeep
    have hD2 : delList mn mx (lines.drop c) =
        lines[c] :: delList mn mx (lines.drop (c + 1)) := by
      rw [hdrop]
      simp [delList, hkeep]
    rw [hK, hsplit, hD2, List.getElem?_append_right (le_refl _), Nat.sub_self]
    exact List.getElem?_cons_zero
  · intro hin
    have hmx : mn ≤ lines[c].lineno ∧ lines[c].lineno ≤ mx := by
      simpa [inRangeL] using hin
    have hD2 : delList mn mx (lines.drop c) = delList mn mx (lines.drop (c + 1)) := by
      rw [hdrop]
      simp [delList, hin]
    refine ⟨?_, ?_, ?_⟩
    · intro i hi
      rw [hK] at hi
      obtain ⟨x, hgetx⟩ : ∃ x, (delList mn mx (lines.take c))[i]? = some x := by
        cases hq : (delList mn mx (lines.take c))[i]? with
        | none =>
          rw [List.getElem?_eq_none_iff] at hq
          omega
        | some x => exact ⟨x, rfl⟩
      refine ⟨x, ?_, ?_⟩
      · rw [hsplit, hD2, List.getElem?_append_left hi]
        exact hgetx
      · have hxmem : x ∈ lines.take c := by
          have hm := List.getElem?_mem hgetx
          rw [delList_eq_filter] at hm
          exact (List.mem_filter.mp hm).1
        have hlt := hcross x hxmem lines[c] hcmem
        omega
    · intro l hl
      rw [hK, hsplit, hD2, List.getElem?_append_right (le_refl _), Nat.sub_self] at hl
      have hmem := List.getElem?_mem hl
      rw [delList_eq_filter] at hmem
      have hmem2 := List.mem_filter.mp hmem
      have hgt : lines[c].lineno < l.lineno := by
        rw [hdrop] at hPWdrop
        exact (List.pairwise_cons.mp hPWdrop).1 l hmem2.1
      have hnr : l.lineno < mn ∨ mx < l.lineno := by
        simpa [inRangeL] using hmem2.2
      omega
    · intro hnone
      rw [hK, hsplit, hD2] at hnone ⊢
      rw [List.getElem?_eq_none_iff] at hnone
      simp only [List.length_append] at hnone ⊢
      omega

theorem spec_C6_delete_cursor_witness :
    List.Pairwise (fun a b => a.lineno < b.lineno)
      [(⟨10, 1⟩ : Line), ⟨20, 2⟩, ⟨30, 3⟩] ∧
    prog_delete 20 20 (some ⟨[⟨10, 1⟩, ⟨20, 2⟩, ⟨30, 3⟩], some 1⟩) =
      (0, some ⟨delList 20 20 [⟨10, 1⟩, ⟨20, 2⟩, ⟨30, 3⟩],
        some (delCur 20 20 [⟨10, 1⟩, ⟨20, 2⟩, ⟨30, 3⟩] 1)⟩) ∧
    (delList 20 20 [⟨10, 1⟩, ⟨20, 2⟩, ⟨30, 3⟩])[delCur 20 20 [⟨10, 1⟩, ⟨20, 2⟩, ⟨30, 3⟩] 1]? =
      some ⟨30, 3⟩ :=
  ⟨by decide,
   (spec_C6_delete_cursor [⟨10, 1⟩, ⟨20, 2⟩, ⟨30, 3⟩] 1 20 20 (by decide) (by decide)
     (by decide) (by decide)).1,
   by decide⟩

/-! ## Claim C7: cursor preservation across `prog_insert` -/

theorem insList_mem (t : Line) (ls : List Line) (x : Line) (hx : x ∈ insList t ls) :
    x = t ∨ x ∈ ls := by
  induction ls with
  | nil => simpa [insList] using hx
  | cons l rest ih =>
    by_cases h1 : l.lineno = t.lineno
    · simp only [insList, if_pos h1] at hx
      rcases List.mem_cons.mp hx with rfl | hx
      · exact Or.inl rfl
      · exact Or.inr (List.mem_cons_of_mem _ hx)
    · by_cases h2 : t.lineno < l.lineno
      · simp only [insList, if_neg h1, if_pos h2] at hx
        rcases List.mem_cons.mp hx with rfl | hx
        · exact Or.inl rfl
        · exact Or.inr hx
      · simp only [insList, if_neg h1, if_neg h2] at hx
        rcases List.mem_cons.mp hx with rfl | hx
        · exact Or.inr (List.mem_cons_self ..)
        · rcases ih hx with h | h
          · exact Or.inl h
          · exact Or.inr (List.mem_cons_of_mem _ h)

theorem insList_sorted (t : Line) (ls : List Line)
    (hs : List.Pairwise (fun a b => a.lineno < b.lineno) ls) :
    List.Pairwise (fun a b => a.lineno < b.lineno) (insList t ls) := by
  induction ls with
  | nil => simp [insList]
  | cons l rest ih =>
    obtain ⟨hl, hrest⟩ := List.pairwise_cons.mp hs
    by_cases h1 : l.lineno = t.lineno
    · simp only [insList, if_pos h1]
      exact List.pairwise_cons.mpr ⟨fun b hb => h1 ▸ hl b hb, hrest⟩
    · by_cases h2 : t.lineno < l.lineno
      · simp only [insList, if_neg h1, if_pos h2]
        refine List.pairwise_cons.mpr ⟨?_, hs⟩
        intro b hb
        rcases List.mem_cons.mp hb with rfl | hb
        · exact h2
        · exact lt_trans h2 (hl b hb)
      · simp only [insList, if_neg h1, if_neg h2]
        refine List.pairwise_cons.mpr ⟨?_, ih hrest⟩
        intro b hb
        rcases insList_mem t rest b hb with rfl | hb
        · omega
        · exact hl b hb

/-- The node the counter pointed at before `prog_insert` is the node it
points at afterwards (the node itself when it was not replaced; the node
carrying the new statement when it was the one replaced). -/
theorem insCur_get (t : Line) (ls : List Line) (c : Nat)
    (hs : List.Pairwise (fun a b => a.lineno < b.lineno) ls) (hc : c < ls.length) :
    (insList t ls)[insCur t ls c]? =
      some (if ls[c].lineno = t.lineno then t else ls[c]) := by
  induction ls generalizing c with
  | nil => simp at hc
  | cons l rest ih =>
    obtain ⟨hl, hrest⟩ := List.pairwise_cons.mp hs
    by_cases h1 : l.lineno = t.lineno
    · simp only [insList, if_pos h1, insCur]
      cases c with
      | zero => simp [h1]
      | succ k =>
        have hk : k < rest.length := by simpa using hc
        have hne : ¬rest[k].lineno = t.lineno := by
          have := hl _ (List.getElem_mem hk)
          omega
        simp only [List.getElem?_cons_succ, List.getElem_cons_succ]
        rw [if_neg hne, List.getElem?_eq_getElem hk]
    · by_cases h2 : t.lineno < l.lineno
      · simp only [insList, if_neg h1, if_pos h2, insCur]
        have hne : ¬(l :: rest)[c].lineno = t.lineno := by
          have hmem := List.getElem_mem hc
          rcases List.mem_cons.mp hmem with hx | hx
          · rw [hx]
            omega
          · have := hl _ hx
            omega
        rw [List.getElem?_cons_succ, List.getElem?_eq_getElem hc, if_neg hne]
      · have hlt : l.lineno < t.lineno := by omega
        cases c with
        | zero =>
          simp only [insList, if_neg h1, if_neg h2, insCur, if_pos rfl]
          simp [h1]
        | succ k =>
          have hk : k < rest.length := by simpa using hc
          simp only [insList, if_neg h1, if_neg h2, insCur, Nat.succ_ne_zero, if_false,
            Nat.succ_sub_one, List.getElem?_cons_succ, List.getElem_cons_succ]
          exact ih k hrest hk

/-- A counter at the dummy head stays at the dummy head across
`prog_insert`. -/
theorem insCur_atEnd (t : Line) (ls : List Line) :
    insCur t ls ls.length = (insList t ls).length := by
  induction ls with
  | nil => rfl
  | cons l rest ih =>
    by_cases h1 : l.lineno = t.lineno
    · simp [insCur, insList, h1]
    · by_cases h2 : t.lineno < l.lineno
      · simp [insCur, insList, h1, h2]
      · simp [insCur, insList, h1, h2, ih]

/-- C7: on a well-formed store, inserting a statement with a positive
line number keeps the result code 0, leaves the cursor designating the
very line it designated before (the line being replaced included: the
node then carries the new statement with the same line number), keeps a
cursor at end at end, and preserves the strictly increasing order. -/
theorem spec_C7_insert_cursor (lines : List Line) (c : Nat) (t : Line)
    (hs : List.Pairwise (fun a b => a.lineno < b.lineno) lines)
    (ht : 0 < t.lineno) (_hc : c ≤ lines.length) :
    prog_insert t (some ⟨lines, some c⟩) =
      (0, some ⟨insList t lines, some (insCur t lines c)⟩) ∧
    (∀ h : c < lines.length,
      (insList t lines)[insCur t lines c]? =
        some (if lines[c].lineno = t.lineno then t else lines[c])) ∧
    (c = lines.length → insCur t lines c = (insList t lines).length) ∧
    List.Pairwise (fun a b => a.lineno < b.lineno) (insList t lines) := by
  refine ⟨?_, ?_, ?_, ?_⟩
  · simp only [prog_insert, Option.getD_some, if_neg (show ¬t.lineno ≤ 0 by omega)]
  · intro h
    exact insCur_get t lines c hs h
  · intro h
    subst h
    exact insCur_atEnd t lines
  · exact insList_sorted t lines hs

theorem spec_C7_insert_cursor_witness :
    List.Pairwise (fun a b => a.lineno < b.lineno) [(⟨10, 1⟩ : Line), ⟨30, 3⟩] ∧
    prog_insert ⟨20, 9⟩ (some ⟨[⟨10, 1⟩, ⟨30, 3⟩], some 1⟩) =
      (0, some ⟨insList ⟨20, 9⟩ [⟨10, 1⟩, ⟨30, 3⟩],
        some (insCur ⟨20, 9⟩ [⟨10, 1⟩, ⟨30, 3⟩] 1)⟩) ∧
    (insList ⟨20, 9⟩ [⟨10, 1⟩, ⟨30, 3⟩])[insCur ⟨20, 9⟩ [⟨10, 1⟩, ⟨30, 3⟩] 1]? =
      some ⟨30, 3⟩ :=
  ⟨by decide,
   (spec_C7_insert_cursor [⟨10, 1⟩, ⟨30, 3⟩] 1 ⟨20, 9⟩ (by decide) (by decide)
     (by decide)).1,
   ((spec_C7_insert_cursor [⟨10, 1⟩, ⟨30, 3⟩] 1 ⟨20, 9⟩ (by decide) (by decide)
     (by decide)).2.1 (by decide)).trans (by decide)⟩

/-! ## Claim C10: `prog_goto` and the never-initialised store -/

theorem gotoAux_found (n : Int) (ls : List Line) (i : Nat) (l : Line)
    (hg : ls[i]? = some l) (hn : l.lineno = n)
    (hmin : ∀ j, j < i → ∀ x, ls[j]? = some x → x.lineno ≠ n) :
    gotoAux n ls = some (i, l) := by
  induction ls generalizing i with
  | nil => simp at hg
  | cons a rest ih =>
    cases i with
    | zero =>
      simp only [List.getElem?_cons_zero, Option.some.injEq] at hg
      subst hg
      simp [gotoAux, hn]
    | succ k =>
      have ha : a.lineno ≠ n := hmin 0 (Nat.succ_pos k) a List.getElem?_cons_zero
      rw [List.getElem?_cons_succ] at hg
      have hmin2 : ∀ j, j < k → ∀ x, rest[j]? = some x → x.lineno ≠ n := by
        intro j hj x hx
        exact hmin (j + 1) (by omega) x (by rw [List.getElem?_cons_succ]; exact hx)
      simp [gotoAux, ha, ih k hg hmin2]

theorem gotoAux_none (n : Int) (ls : List Line) (h : ∀ x ∈ ls, x.lineno ≠ n) :
    gotoAux n ls = none := by
  induction ls with
  | nil => rfl
  | cons a rest ih =>
    simp [gotoAux, h a (List.mem_cons_self ..),
      ih (fun x hx => h x (List.mem_cons_of_mem _ hx))]

/-- C10: every program-store operation except `prog_goto` checks for the
never-initialised store and returns NULL or is a no-op there, while
`prog_goto` dereferences the store unconditionally (undefined behaviour,
the outer `none`); once the store has been initialised by some insert,
`prog_goto` behaves as documented: it moves the counter to the first
line with the requested number and returns its statement, and with no
matching line it leaves the state unchanged and returns NULL. -/
theorem spec_C10_goto_requires_init :
    (∀ n : Int, prog_goto n none = none) ∧
    prog_fetch none = some none ∧
    prog_next none = (none, none) ∧
    prog_reset none = none ∧
    (∀ mn mx : Int, (prog_delete mn mx none).2 = none) ∧
    prog_list none = (0, []) ∧
    (∀ (p : Prog) (n : Int) (i : Nat) (l : Line),
      p.lines[i]? = some l → l.lineno = n →
      (∀ j, j < i → ∀ x, p.lines[j]? = some x → x.lineno ≠ n) →
      prog_goto n (some p) = some (some l.stmt, some ⟨p.lines, some i⟩)) ∧
    (∀ (p : Prog) (n : Int), (∀ x ∈ p.lines, x.lineno ≠ n) →
      prog_goto n (some p) = some (none, some p)) := by
  refine ⟨fun n => rfl, rfl, rfl, rfl, ?_, rfl, ?_, ?_⟩
  · intro mn mx
    rw [prog_delete]
    split <;> rfl
  · intro p n i l hg hn hmin
    simp [prog_goto, gotoAux_found n p.lines i l hg hn hmin]
  · intro p n h
    simp [prog_goto, gotoAux_none n p.lines h]

theorem spec_C10_goto_requires_init_witness :
    prog_goto 20 (some ⟨[⟨10, 1⟩, ⟨20, 2⟩], none⟩) =
      some (some 2, some ⟨[⟨10, 1⟩, ⟨20, 2⟩], some 1⟩) :=
  spec_C10_goto_requires_init.2.2.2.2.2.2.1 ⟨[⟨10, 1⟩, ⟨20, 2⟩], none⟩ 20 1 ⟨20, 2⟩
    rfl rfl
    (by
      intro j hj x hx
      have hj0 : j = 0 := by omega
      subst hj0
      simp only [List.getElem?_cons_zero, Option.some.injEq] at hx
      subst hx
      decide)

/-! ## The jobs module

`JOB_NODE` is embedded field for field (the pipeline is an opaque tag;
the C node stores the five status values as the string literals
`"new"`, `"running"`, `"completed"`, `"aborted"`, `"canceled"` and
compares them with `strcmp`, embedded as an enumeration).  The node has
no field recording a cancellation attempt.  The circular table with
dummy head is a list; `jtable == NULL` is the outer `Option`.  The
external effect of `kill(-pgid, SIGKILL)` is abstracted by an oracle
`killok` saying whether `kill` succeeds on a given process group, and
signal handlers run only where the embedding invokes them explicitly
(the C code masks all signals inside every handler and around every
critical section, so handler bodies are atomic with respect to the
functions modelled here). -/

inductive JStatus
  | new
  | running
  | completed
  | aborted
  | canceled
deriving DecidableEq

structure Job where
  job_id : Int
  pgid : Int
  status : JStatus
  exit_status : Int
  readfd : Int
  pipeline : Nat
  job_output : Option (List Nat)
deriving DecidableEq

abbrev JState := Option (List Job)

/-- The three-way `strcmp` test used by `jobs_wait`/`jobs_poll`. -/
def isTerminal : JStatus → Bool
  | .completed => true
  | .aborted => true
  | .canceled => true
  | _ => false

/-- Walk of `jobs_poll`: on the first node with the job id, the exit
status if the status string is terminal, else `-1`; `-1` if absent. -/
def pollAux (jobid : Int) : List Job → Int
  | [] => -1
  | j :: rest =>
    if j.job_id = jobid then (if isTerminal j.status then j.exit_status else -1)
    else pollAux jobid rest

/-- `jobs_poll`. -/
def jobs_poll (jobid : Int) : JState → Int
  | none => -1
  | some tbl => pollAux jobid tbl

/-! ### `child_handler` (claim C1) -/

/-- glibc `WIFEXITED`: low seven bits all zero. -/
def wifexited (s : Nat) : Bool := s % 128 = 0

/-- glibc `WIFSIGNALED`: `((signed char)(((s & 0x7f) + 1) >> 1)) > 0`,
true exactly when the low seven bits are neither `0` nor `0x7f`. -/
def wifsignaled (s : Nat) : Bool := decide (s % 128 ≠ 0) && decide (s % 128 ≠ 127)

/-- glibc `WIFSTOPPED`: low byte equal to `0x7f`. -/
def wifstopped (s : Nat) : Bool := s % 256 = 127

/-- glibc `WEXITSTATUS`: bits 8..15. -/
def wexitstatus (s : Nat) : Nat := (s / 256) % 256

/-- The classification `child_handler` performs on the raw wait status
it reaped: inside `if(WIFSTOPPED|WIFSIGNALED|WIFEXITED)` it switches on
`WEXITSTATUS` alone — `EXIT_SUCCESS` (0) picks `"completed"`, `SIGKILL`
(9) picks `"canceled"`, anything else `"aborted"`.  `none` when the
guard rejects the status and no update happens. -/
def childClassify (chstatus : Nat) : Option JStatus :=
  if wifstopped chstatus || wifsignaled chstatus || wifexited chstatus then
    some (if wexitstatus chstatus = 0 then .completed
          else if wexitstatus chstatus = 9 then .canceled
          else .aborted)
  else none

/-- Walk of `change_job_status`: first node whose `pgid` equals the
reaped pid gets the new status and the raw wait status. -/
def changeAux (pid : Int) (st : JStatus) (es : Int) : List Job → Int × List Job
  | [] => (-1, [])
  | j :: rest =>
    if j.pgid = pid then (0, { j with status := st, exit_status := es } :: rest)
    else
      let r := changeAux pid st es rest
      (r.1, j :: r.2)

/-- `change_job_status`. -/
def change_job_status (pid : Int) (st : JStatus) (es : Int) : JState → Int × JState
  | none => (-1, none)
  | some tbl =>
    let r := changeAux pid st es tbl
    (r.1, some r.2)

/-- Effect of one `child_handler` invocation that reaped the child
`pid` with raw wait status `chstatus`. -/
def child_handler (pid : Int) (chstatus : Nat) (s : JState) : JState :=
  match childClassify chstatus with
  | some st => (change_job_status pid st (Int.ofNat chstatus) s).2
  | none => s

/-! ### `jobs_cancel` (claim C2) -/

/-- Walk of the second half of `jobs_cancel`: on the first node with the
job id, `kill(-pgid, SIGKILL)` decides the result; `-1` if absent. -/
def cancelAux (killok : Int → Bool) (jobid : Int) : List Job → Int
  | [] => -1
  | j :: rest =>
    if j.job_id = jobid then (if killok j.pgid then 0 else -1)
    else cancelAux killok jobid rest

/-- `jobs_cancel`: fails if `jobs_poll` reports the job terminated, else
signals the process group.  Nothing in the table is written: the node
has no field recording the attempt.  With `jtable == NULL` the poll
returns `-1` and the subsequent `jtable->head` dereference is undefined
behaviour (`none`). -/
def jobs_cancel (killok : Int → Bool) (jobid : Int) : JState → Option Int
  | none => none
  | some tbl =>
    if pollAux jobid tbl ≠ -1 then some (-1) else some (cancelAux killok jobid tbl)

/-! ### `jobs_expunge` and `jobs_fini` (claim C8) -/

/-- Walk of `jobs_expunge`: unlink the first node with the job id. -/
def expungeAux (jobid : Int) : List Job → Int × List Job
  | [] => (-1, [])
  | j :: rest =>
    if j.job_id = jobid then (0, rest)
    else
      let r := expungeAux jobid rest
      (r.1, j :: r.2)

/-- `jobs_expunge`: refuses while `jobs_poll` returns `-1` (job not
terminated or absent), else unlinks and frees the node. -/
def jobs_expunge (jobid : Int) : JState → Int × JState
  | none => (-1, none)
  | some tbl =>
    if pollAux jobid tbl = -1 then (-1, some tbl)
    else
      let r := expungeAux jobid tbl
      (r.1, some r.2)

/-- `jobs_fini`.  The loop body for the first job either returns `-1`
(from a failed cancel, or from the expunge that fails because the job
has not terminated — no wait happens between the two), or expunges the
node it is standing on and then evaluates `current_job->next` on the
freed node: undefined behaviour, modelled as `none`.  Only the empty
table reaches the tail of the function, which frees the table and NULLs
`jtable`. -/
def jobs_fini (killok : Int → Bool) : JState → Option (Int × JState)
  | none => some (-1, none)
  | some tbl =>
    match tbl with
    | [] => some (0, none)
    | j :: _ =>
      if pollAux j.job_id tbl < 0 then
        let cv := if pollAux j.job_id tbl ≠ -1 then -1 else cancelAux killok j.job_id tbl
        if cv < 0 then some (-1, some tbl)
        else
          let ev := if pollAux j.job_id tbl = -1 then ((-1 : Int), tbl)
                    else expungeAux j.job_id tbl
          if ev.1 < 0 then some (-1, some ev.2)
          else none
      else
        let ev := if pollAux j.job_id tbl = -1 then ((-1 : Int), tbl)
                  else expungeAux j.job_id tbl
        if ev.1 < 0 then some (-1, some ev.2)
        else none

/-! ### `read_output_capture` and `jobs_get_output` (claim C9) -/

/-- The bytes a C string function sees in a buffer: everything before
the first NUL. -/
def cstr (buf : List Nat) : List Nat := buf.takeWhile (fun b => b ≠ 0)

/-- Contents written by `strncpy(dst, src, n)`: the bytes of `src` up to
the first NUL, padded with NULs to `n` — or just the first `n` bytes
when no NUL occurs among them (no terminator is written then). -/
def strncpyBuf (src : List Nat) (n : Nat) : List Nat :=
  let t := src.takeWhile (fun b => b ≠ 0)
  if n ≤ t.length then t.take n else t ++ List.replicate (n - t.length) 0

/-- One `read_output_capture` call on a job, with `avail` the bytes
pending on the capture fd (the non-blocking single-byte read loop drains
them all into the memstream, so `buf` holds `avail` and `len` its
length).  The code then copies with `strncpy(result, buf, len)` into a
`malloc(len)` buffer — note: not `len+1`, so no NUL terminator is
written after the data — and installs it, or appends it with
`strcat` (which reads both buffers as C strings, stopping at NUL
bytes; the terminator `strcat` writes is made explicit here). -/
def read_output_capture (avail : List Nat) (job : Job) : Int × Job :=
  if job.readfd = -1 then (-1, job)
  else
    let len := avail.length
    let result := strncpyBuf avail len
    if 0 < len then
      match job.job_output with
      | some prev => (0, { job with job_output := some (cstr prev ++ cstr result ++ [0]) })
      | none => (0, { job with job_output := some result })
    else (0, job)

/-- Walk of `jobs_get_output`. -/
def getOutputAux (jobid : Int) : List Job → Option (List Nat)
  | [] => none
  | j :: rest => if j.job_id = jobid then j.job_output else getOutputAux jobid rest

/-- `jobs_get_output`: the raw stored buffer of the job, if any. -/
def jobs_get_output (jobid : Int) : JState → Option (List Nat)
  | none => none
  | some tbl => getOutputAux jobid tbl

/-! ## Claims C1, C2, C8, C9 -/

/-- C1: the claim says a leader killed by SIGKILL moves the job to
CANCELED and any other abnormal end to ABORTED.  The handler switches on
`WEXITSTATUS`, which is `0` for every signal death, so a leader killed
by SIGKILL (raw wait status 9) is classified `EXIT_SUCCESS` and the job
becomes "completed"; dually, a leader that *exits normally* with code 9
(raw status 2304 = 9·256) becomes "canceled".  Only the storing of the
raw wait status in `exit_status` holds as claimed (the third conjunct:
status 9 is stored verbatim while the state becomes "completed"). -/
theorem spec_C1_sigkill_classified_completed :
    childClassify 9 = some .completed ∧
    childClassify 2304 = some .canceled ∧
    child_handler 100 9 (some [⟨0, 100, .running, -1, -1, 0, none⟩]) =
      some [⟨0, 100, .completed, 9, -1, 0, none⟩] := by decide

/-- C2: the claim says a second `cancel` on a still-running job fails.
`JOB_NODE` has no `cancel_requested` field and `jobs_cancel` writes
nothing (in the embedding it does not even return a table), so on a
table with one running job whose process group accepts the signal, the
first and any immediately repeated call evaluate identically to
success, never to `-1`. -/
theorem spec_C2_second_cancel_succeeds :
    jobs_cancel (fun _ => true) 0 (some [⟨0, 100, .running, -1, -1, 0, none⟩]) =
      some 0 ∧
    jobs_cancel (fun _ => true) 0 (some [⟨0, 100, .running, -1, -1, 0, none⟩]) ≠
      some (-1) := by decide

/-- C8: the claim says `fini` cancels each unterminated job, waits for
it, then expunges everything and succeeds.  On a table with one running
job the code cancels it and immediately calls `jobs_expunge` with no
wait in between, which fails because the job is still running, so
`jobs_fini` returns `-1` with the job still in the table; on a table
with one already-terminated job the expunge succeeds and the loop then
reads `current_job->next` from the freed node (undefined behaviour);
only the empty table is finalised successfully. -/
theorem spec_C8_fini_no_wait :
    jobs_fini (fun _ => true) (some [⟨0, 100, .running, -1, -1, 0, none⟩]) =
      some (-1, some [⟨0, 100, .running, -1, -1, 0, none⟩]) ∧
    jobs_fini (fun _ => true) (some [⟨0, 100, .completed, 0, -1, 0, none⟩]) = none ∧
    jobs_fini (fun _ => true) (some []) = some (0, none) := by decide

/-- C9: the claim says the captured output equals the written bytes
byte-for-byte, including NUL bytes.  For the three written bytes
`0x61 0x00 0x62`, `strncpy` stops at the NUL and pads with NULs, so the
installed buffer is `0x61 0x00 0x00`, and `jobs_get_output` hands that
buffer out: read as the C string it is, it is just `"a"`. -/
theorem spec_C9_capture_truncates_at_nul :
    (read_output_capture [97, 0, 98] ⟨0, 100, .running, -1, 5, 0, none⟩).2.job_output =
      some [97, 0, 0] ∧
    jobs_get_output 0
      (some [(read_output_capture [97, 0, 98] ⟨0, 100, .running, -1, 5, 0, none⟩).2]) =
      some [97, 0, 0] ∧
    jobs_get_output 0
      (some [(read_output_capture [97, 0, 98] ⟨0, 100, .running, -1, 5, 0, none⟩).2]) ≠
      some [97, 0, 98] ∧
    cstr [97, 0, 0] = [97] := by decide

end Mush
